import Mathlib

/-!
Shallow embedding of the abyssal-world data-fusion pipeline
(`merge_abyssal_data.py`) and of its two downstream consumers
(`app/tools.py` and `app/main.py`), together with proofs settling the
frozen specification claims.

Tables are modelled as lists of rows.  A secondary-table row carries its
`(row, col)` key and the list of its non-key cell values in column order.
Cell values are modelled by an explicit datatype (`Value`) distinguishing
the CSV null (pandas `NaN`), strings and integers, since the pipeline
only inspects cells for nullness and for equality with the empty-string
sentinel.
-/

set_option autoImplicit false

namespace Abyssal

/-- A cell value of an in-memory pandas table: null (`NaN`), a string,
or an integer.  The pipeline only ever inspects values for nullness and
for equality with the empty string, so this covers the behaviour of the
source exactly. -/
inductive Value where
  | null : Value
  | str : String → Value
  | int : Int → Value
deriving DecidableEq

/-- A grid coordinate `(row, col)`. -/
abbrev Coord := Nat × Nat

/-- A row of a secondary table after column renaming: its `(row, col)`
key and the non-key cell values in column order. -/
structure SecRow where
  key : Coord
  vals : List Value
deriving DecidableEq

/-- Lexicographic order on coordinates, the order in which
`groupby(["row", "col"])` emits its groups. -/
def keyLE (a b : Coord) : Prop := a.1 < b.1 ∨ (a.1 = b.1 ∧ a.2 ≤ b.2)

instance keyLE.decRel : DecidableRel keyLE := fun x y =>
  inferInstanceAs (Decidable (x.1 < y.1 ∨ (x.1 = y.1 ∧ x.2 ≤ y.2)))

/-- `df_other.duplicated(subset=["row", "col"]).any()`: true iff some
`(row, col)` key occurs more than once. -/
def dupKeys (t : List SecRow) : Bool :=
  decide (¬ (t.map (fun r => r.key)).Nodup)

/-- Replace one position of a list (used to model a pandas column
assignment `df[col] = df[col].apply(f)` in the row-major view: position
`p` of every row's value list is the affected column). -/
def mapAt {α : Type} : Nat → (α → α) → List α → List α
  | _, _, [] => []
  | 0, f, c :: cs => f c :: cs
  | p + 1, f, c :: cs => c :: mapAt p f cs

/-- `fillna('')` on a single cell: null becomes the empty string. -/
def fillnaVal (v : Value) : Value :=
  if v = Value.null then Value.str "" else v

/-- `df_other[prey_col] = df_other[prey_col].fillna('')`: normalize the
prey column (at index `p`) of every row. -/
def fillnaCol (p : Nat) (t : List SecRow) : List SecRow :=
  t.map (fun r => ⟨r.key, mapAt p fillnaVal r.vals⟩)

/-- The rows of `t` sharing coordinate `k`, in original source-row
order (`groupby` preserves intra-group order). -/
def groupRows (t : List SecRow) (k : Coord) : List SecRow :=
  t.filter (fun r => r.key == k)

/-- The value of column `j` on row `r`. -/
def colOf (j : Nat) (r : SecRow) : Value :=
  r.vals.getD j Value.null

/-- The aggregated list for column `j` at coordinate `k`: the values of
column `j` over the rows of the group, in source order.  This is the
per-column `agg(list)` of the source: each column is aggregated
independently over the same grouping. -/
def colList (t : List SecRow) (k : Coord) (j : Nat) : List Value :=
  (groupRows t k).map (colOf j)

/-- The distinct coordinates of `t`, sorted ascending, as produced by
`groupby(["row", "col"]).agg(list).reset_index()`. -/
def aggKeys (t : List SecRow) : List Coord :=
  ((t.map (fun r => r.key)).dedup).insertionSort keyLE

/-- Payload of a processed secondary row: scalar cells if aggregation
was skipped, or one aggregated cell per column (an `Option` so the
null-collapse cleanup can blank a whole cell). -/
inductive ProcPayload where
  | scalar : List Value → ProcPayload
  | listed : List (Option (List Value)) → ProcPayload
deriving DecidableEq

/-- `df_other.groupby(["row", "col"])[value_cols].agg(list).reset_index()`
for a table with `nc` value columns: one row per distinct coordinate,
each of the `nc` columns collapsed into its group list. -/
def aggregate (nc : Nat) (t : List SecRow) : List (Coord × ProcPayload) :=
  (aggKeys t).map (fun k =>
    (k, ProcPayload.listed ((List.range nc).map (fun j => some (colList t k j)))))

/-- `clean_prey` from the source: a list containing only empty strings
becomes `None`; any other value is returned unchanged (the
`isinstance(lst, list)` guard). -/
def clean_prey (v : Option (List Value)) : Option (List Value) :=
  match v with
  | some lst => if lst.all (fun x => x == Value.str "") then none else some lst
  | none => none

/-- `df_agg[prey_col] = df_agg[prey_col].apply(clean_prey)`: apply
`clean_prey` to the cell at column index `p` of every aggregated row. -/
def applyCleanPrey (p : Nat) (t : List (Coord × ProcPayload)) :
    List (Coord × ProcPayload) :=
  t.map (fun kp =>
    (kp.1, match kp.2 with
      | ProcPayload.listed cols => ProcPayload.listed (mapAt p clean_prey cols)
      | pl => pl))

/-- Static description of one secondary source: its number of value
columns and, for `life.csv`, the index of the `life_prey_species`
column (when present). -/
structure SecSpec where
  nc : Nat
  preyIdx : Option Nat
deriving DecidableEq

/-- Lines 39–70 of `merge_abyssal_data.py` for one secondary table
(after column renaming): the `life.csv` prey `fillna`, then the
duplicate-key check deciding between list aggregation (followed by the
prey null-collapse) and keeping the scalar rows unchanged. -/
def processSecondary (sp : SecSpec) (t0 : List SecRow) : List (Coord × ProcPayload) :=
  let t := match sp.preyIdx with
    | some p => fillnaCol p t0
    | none => t0
  if dupKeys t then
    let a := aggregate sp.nc t
    match sp.preyIdx with
    | some p => applyCleanPrey p a
    | none => a
  else
    t.map (fun r => (r.key, ProcPayload.scalar r.vals))

/-- A row of the base grid `cells.csv`: coordinate key, biome label and
the remaining base attributes. -/
structure BaseRow where
  key : Coord
  biome : String
  attrs : List Value
deriving DecidableEq

/-- A row of the accumulating grid: the base row plus one appended
payload slot per merged secondary source (`none` when the source had no
record for this cell). -/
abbrev GridRow := BaseRow × List (Option ProcPayload)

/-- `pd.merge(left, right, how="left")` on a key: every left row is
paired with each matching right row in right order, or with `none` when
no right row matches.  This is the general pandas semantics, which can
duplicate left rows when the right key is not unique. -/
def leftMerge {κ β γ : Type} [DecidableEq κ] (keyOf : γ → κ) :
    List γ → List (κ × β) → List (γ × Option β)
  | [], _ => []
  | g :: gs, right =>
    (match right.filter (fun r => r.1 == keyOf g) with
     | [] => [(g, none)]
     | ms => ms.map (fun r => (g, some r.2))) ++ leftMerge keyOf gs right

/-- One secondary merge step (line 73):
`df_cells = pd.merge(df_cells, df_other, on=["row", "col"], how="left")`,
appending the processed secondary's payload to each grid row. -/
def mergeSecondary (grid : List GridRow) (sp : SecSpec) (t : List SecRow) :
    List GridRow :=
  (leftMerge (fun g => g.1.key) grid (processSecondary sp t)).map
    (fun gm => (gm.1.1, gm.1.2 ++ [gm.2]))

/-- A row of `food_web.csv`: predator, prey, interaction strength and
the `biome_overlap` group label (`none` models a `NaN` label, which
`groupby` drops). -/
structure FoodRow where
  predator : Value
  prey : Value
  strength : Value
  overlap : Option String
deriving DecidableEq

/-- The three aggregated food-web lists of one biome group:
predators, prey, interaction strengths. -/
abbrev FoodPayload := List Value × List Value × List Value

/-- The distinct non-null `biome_overlap` labels, sorted, as produced
by `groupby("biome_overlap")`. -/
def foodKeys (t : List FoodRow) : List String :=
  ((t.filterMap (fun r => r.overlap)).dedup).insertionSort (fun a b => a ≤ b)

/-- The food-web rows of group `b`, in source order. -/
def foodGroup (t : List FoodRow) (b : String) : List FoodRow :=
  t.filter (fun r => r.overlap == some b)

/-- `df_food.groupby("biome_overlap").agg({...: list}).reset_index()`:
one row per distinct label, each of the three columns aggregated
independently over the same grouping into its group list. -/
def foodAgg (t : List FoodRow) : List (String × FoodPayload) :=
  (foodKeys t).map (fun b =>
    (b, ((foodGroup t b).map (fun r => r.predator),
         (foodGroup t b).map (fun r => r.prey),
         (foodGroup t b).map (fun r => r.strength))))

/-- A fully fused row: grid row plus the optional food-web payload. -/
abbrev FullRow := GridRow × Option FoodPayload

/-- Line 97: `pd.merge(df_cells, df_food_agg, left_on="biome",
right_on="biome_overlap", how="left")` (the redundant right key column
is dropped afterwards, so only the payload is kept). -/
def mergeFood (grid : List GridRow) (t : List FoodRow) : List FullRow :=
  leftMerge (fun g => g.1.biome) grid (foodAgg t)

/-- One optional secondary source as fed to the pipeline. -/
structure SecInput where
  spec : SecSpec
  rows : List SecRow
deriving DecidableEq

/-- The freshly loaded base grid, with no secondary columns yet. -/
def initGrid (base : List BaseRow) : List GridRow :=
  base.map (fun b => (b, []))

/-- The loop over the six optional secondary files: a missing file
(`none`) is skipped, a present one is processed and merged. -/
def runSecondaries (grid : List GridRow) :
    List (Option SecInput) → List GridRow
  | [] => grid
  | none :: rest => runSecondaries grid rest
  | some si :: rest => runSecondaries (mergeSecondary grid si.spec si.rows) rest

/-- The whole fusion pass of `main` after the base grid loaded:
secondary merges, then the optional food-web stage (skipped without
failing when the file is absent). -/
def pipeline (base : List BaseRow) (secs : List (Option SecInput))
    (fw : Option (List FoodRow)) : List FullRow :=
  let g := runSecondaries (initGrid base) secs
  match fw with
  | none => g.map (fun r => (r, none))
  | some t => mergeFood g t

/-- `main` including the mandatory-base check (lines 9–11): a missing
`cells.csv` prints an error and returns with no output written
(`none`); otherwise the fused table is produced and written. -/
def mainProgram (base : Option (List BaseRow)) (secs : List (Option SecInput))
    (fw : Option (List FoodRow)) : Option (List FullRow) :=
  match base with
  | none => none
  | some b => some (pipeline b secs fw)

/-! ### The consumers: CSV round trip, `safe_parse_list`, `safe_eval`,
`query_data`

The persisted format stores a list cell as the Python `str()` of the
list (written by `DataFrame.to_csv`), and the consumers recover it with
`ast.literal_eval` behind a bracket guard.  The serializer and the
literal parser are modelled character-by-character for the fragment
that actually occurs in the data: lists of plain strings and numeric
literals. -/

/-- The single-quote character (`chr 39`), Python's default string
quote. -/
def sq : Char := Char.ofNat 39

/-- The backslash character (`chr 92`). -/
def bsChar : Char := Char.ofNat 92

/-- The double-quote character (`chr 34`). -/
def dqChar : Char := Char.ofNat 34

/-- A character that Python `repr` passes through verbatim inside a
single-quoted string: printable ASCII, no quote of either kind, no
backslash. -/
def plainChar (c : Char) : Bool :=
  (decide (32 ≤ c.toNat) && decide (c.toNat ≤ 126))
    && !(c == sq) && !(c == bsChar) && !(c == dqChar)

/-- A string made of plain characters: Python `repr` renders it as the
string surrounded by single quotes. -/
def plainStr (x : String) : Bool := x.data.all plainChar

/-- Python `repr` of a plain string, as a character list. -/
def reprChars (x : String) : List Char := sq :: x.data ++ [sq]

/-- The characters of `str(list)` after the first element: either the
closing bracket, or a comma, a space and the next element. -/
def encodeTailChars : List String → List Char
  | [] => [']']
  | x :: xs => ',' :: ' ' :: (reprChars x ++ encodeTailChars xs)

/-- The characters of `str(list)` after the opening bracket. -/
def encodeElemsChars : List String → List Char
  | [] => [']']
  | x :: xs => reprChars x ++ encodeTailChars xs

/-- Python `str()` of a list of plain strings, the form in which
`DataFrame.to_csv` persists a list-valued cell. -/
def pyReprList (xs : List String) : String :=
  String.mk ('[' :: encodeElemsChars xs)

/-- A parsed list element: a string literal, or a numeric literal kept
as its text. -/
inductive Atom where
  | s : String → Atom
  | n : String → Atom
deriving DecidableEq

def skipSpaces (l : List Char) : List Char := l.dropWhile (fun c => c == ' ')

/-- Scan a single-quoted string body: the characters before the closing
quote and the rest after it. -/
def spanNotQuote : List Char → Option (List Char × List Char)
  | [] => none
  | c :: cs =>
    if c = sq then some ([], cs)
    else
      match spanNotQuote cs with
      | some (a, r) => some (c :: a, r)
      | none => none

/-- A character that may appear in a numeric literal. -/
def numChar (c : Char) : Bool :=
  c.isDigit || c == '-' || c == '+' || c == '.' || c == 'e' || c == 'E'

/-- Parse one list element: a quoted string or a numeric literal. -/
def parseAtom : List Char → Option (Atom × List Char)
  | [] => none
  | c :: cs =>
    if c = sq then
      match spanNotQuote cs with
      | some (a, r) => some (Atom.s (String.mk a), r)
      | none => none
    else
      let ds := (c :: cs).takeWhile numChar
      if ds.isEmpty then none
      else some (Atom.n (String.mk ds), (c :: cs).dropWhile numChar)

/-- Parse the remainder of a list literal after an element: the closing
bracket (which must end the input) or a comma and further elements.
The fuel argument only bounds the recursion; it is always supplied
large enough. -/
def parseTail : Nat → List Char → Option (List Atom)
  | 0, _ => none
  | fuel + 1, l =>
    if skipSpaces l = [']'] then some []
    else
      match skipSpaces l with
      | [] => none
      | c :: rest =>
        if c = ',' then
          match parseAtom (skipSpaces rest) with
          | some (a, r) => (parseTail fuel r).map (fun xs => a :: xs)
          | none => none
        else none

/-- Parse the inside of a list literal (everything after `[`). -/
def parseItems (l : List Char) : Option (List Atom) :=
  if skipSpaces l = [']'] then some []
  else
    match parseAtom (skipSpaces l) with
    | some (a, r) => (parseTail (r.length + 1) r).map (fun xs => a :: xs)
    | none => none

/-- `ast.literal_eval` on the list-literal fragment used by this data
set (lists of single-quoted strings and numeric literals): `some`
elements on success, `none` when the literal is malformed (Python
raises `ValueError`/`SyntaxError`). -/
def parseListLit (s : String) : Option (List Atom) :=
  match s.data with
  | '[' :: rest => parseItems rest
  | _ => none

/-- A cell as seen after `pd.read_csv`: `NaN` (from an empty field), a
string, or a numeric scalar (typed columns). -/
inductive CsvCell where
  | na : CsvCell
  | s : String → CsvCell
  | num : Int → CsvCell
deriving DecidableEq

/-- `pd.isna` on a cell. -/
def pd_isna : CsvCell → Bool
  | CsvCell.na => true
  | _ => false

/-- `val.startswith("[")`. -/
def startsBracket (x : String) : Bool := x.data.head? == some '['

/-- `val.endswith("]")`. -/
def endsBracket (x : String) : Bool := x.data.getLast? == some ']'

/-- `safe_parse_list` from `app/tools.py` (lines 24–34): `NaN` and the
empty string give `[]`; a bracket-delimited string is handed to
`ast.literal_eval`, falling back to `[]` when parsing fails; everything
else gives `[]`. -/
def safe_parse_list (v : CsvCell) : List Atom :=
  if pd_isna v || v == CsvCell.s "" then []
  else
    match v with
    | CsvCell.s x =>
      if startsBracket x && endsBracket x then
        match parseListLit x with
        | some xs => xs
        | none => []
      else []
    | _ => []

/-- A cell of the query tool's dataframe after the load step: either an
untouched raw cell or a parsed list. -/
inductive DfCell where
  | raw : CsvCell → DfCell
  | parsed : List Atom → DfCell
deriving DecidableEq

/-- The load loop of `app/tools.py` (lines 37–39): every column named
in `list_columns` that is present in the dataframe has each of its
cells replaced by `safe_parse_list` of that cell; other columns are
untouched.  The dataframe is modelled column-major. -/
def loadListColumns (listCols : List String) (df : List (String × List CsvCell)) :
    List (String × List DfCell) :=
  df.map (fun col =>
    (col.1,
     if col.1 ∈ listCols then col.2.map (fun c => DfCell.parsed (safe_parse_list c))
     else col.2.map DfCell.raw))

/-- A cell of the fused dataframe as handed to the serializer: null, a
scalar string, or a list of strings. -/
inductive OutCell where
  | null : OutCell
  | s : String → OutCell
  | strList : List String → OutCell
deriving DecidableEq

/-- `DataFrame.to_csv` on one cell: `NaN`/`None` becomes the empty
field, a string is written as is, a list is written as its Python
`str()`. -/
def to_csv_cell : OutCell → String
  | OutCell.null => ""
  | OutCell.s x => x
  | OutCell.strList xs => pyReprList xs

/-- `pd.read_csv` on one persisted cell: an empty field becomes `NaN`,
anything else stays a string. -/
def read_csv_cell (t : String) : CsvCell :=
  if t = "" then CsvCell.na else CsvCell.s t

/-- Encode a fused cell into the CSV and decode it with the consumer's
parser. -/
def roundTrip (c : OutCell) : List Atom :=
  safe_parse_list (read_csv_cell (to_csv_cell c))

/-- The whitespace characters removed by Python `str.strip()`. -/
def pySpace (c : Char) : Bool :=
  c == ' ' || c == Char.ofNat 9 || c == Char.ofNat 10 || c == Char.ofNat 13

def dropTrailWhile (p : Char → Bool) (l : List Char) : List Char :=
  (l.reverse.dropWhile p).reverse

/-- Python `str.strip()`. -/
def pyStrip (s : String) : String :=
  String.mk (dropTrailWhile pySpace (s.data.dropWhile pySpace))

/-- The result of `safe_eval` from `app/main.py`: a parsed list, or the
original (stripped) string when the value is not bracket-delimited. -/
inductive EvalR where
  | lst : List Atom → EvalR
  | txt : String → EvalR
deriving DecidableEq

/-- `safe_eval` from `app/main.py` (lines 15–25): falsy (empty) input
gives `[]`; otherwise the value is stripped, a bracket-delimited string
goes to `ast.literal_eval` (a parse error is caught and gives `[]`),
and any other string is returned unchanged. -/
def safe_eval (val : String) : EvalR :=
  if val = "" then EvalR.lst []
  else
    let v := pyStrip val
    if startsBracket v && endsBracket v then
      match parseListLit v with
      | some xs => EvalR.lst xs
      | none => EvalR.lst []
    else EvalR.txt v

/-- A Python value that the ad hoc query code may leave in
`result_rows`: a list of records (each a list of named integer fields),
or any other object, abstracted with a description. -/
inductive PyObj where
  | records : List (List (String × Int)) → PyObj
  | scalar : String → PyObj
deriving DecidableEq

/-- The outcome of `exec(code, {}, local_vars)`: an exception, or
normal completion with the final value of `result_rows` (if any). -/
inductive ExecOutcome where
  | raises : String → ExecOutcome
  | finishes : Option PyObj → ExecOutcome
deriving DecidableEq

/-- What the `query_data` tool hands back to the agent loop. -/
inductive ToolReturn where
  | ok : PyObj → ToolReturn
  | err : String → ToolReturn
deriving DecidableEq

/-- `query_data` from `app/tools.py` (lines 90–98): an exception is
caught and reported as a descriptive string; a run that never assigned
`result_rows` is reported as a descriptive string; any assigned value
is returned as the tool result. -/
def query_data (o : ExecOutcome) : ToolReturn :=
  match o with
  | ExecOutcome.raises m => ToolReturn.err ("Execution Error: " ++ m)
  | ExecOutcome.finishes none =>
      ToolReturn.err "Error: Code did not assign result_rows variable."
  | ExecOutcome.finishes (some v) => ToolReturn.ok v

/-- The result shape the specification requires of an ad hoc query: a
list of records each carrying both the row and the col key. -/
def keyBearing : PyObj → Bool
  | PyObj.records rs =>
      rs.all (fun r => (r.map Prod.fst).contains "row" && (r.map Prod.fst).contains "col")
  | PyObj.scalar _ => false

/-! ### Concrete example data (used by the witness theorems) -/

/-- A two-cell base grid. -/
def exBase : List BaseRow :=
  [⟨(0, 0), "trench", [Value.int 4000]⟩, ⟨(0, 1), "reef", [Value.int 200]⟩]

/-- A hazards table with a duplicated coordinate key. -/
def exHazards : List SecRow :=
  [⟨(0, 0), [Value.str "vent"]⟩, ⟨(0, 0), [Value.str "quake"]⟩]

/-- The hazards table has one value column and no prey column. -/
def exHazSpec : SecSpec := ⟨1, none⟩

/-- One present secondary source and one missing one. -/
def exSecs : List (Option SecInput) := [some ⟨exHazSpec, exHazards⟩, none]

/-- A food-web table with two rows for the trench biome. -/
def exFood : List FoodRow :=
  [⟨Value.str "eel", Value.str "shrimp", Value.int 1, some "trench"⟩,
   ⟨Value.str "worm", Value.str "detritus", Value.int 2, some "trench"⟩]

/-- A life table (species, prey) whose cell `(0, 0)` has only empty
prey entries (a null and an empty string). -/
def exLife : List SecRow :=
  [⟨(0, 0), [Value.str "squid", Value.null]⟩,
   ⟨(0, 0), [Value.str "crab", Value.str ""]⟩]

/-- The life table has two value columns; prey is column 1. -/
def exLifeSpec : SecSpec := ⟨2, some 1⟩

/-- A secondary table with no duplicated keys. -/
def exNoDup : List SecRow := [⟨(0, 0), [Value.int 3]⟩, ⟨(0, 1), [Value.int 4]⟩]

/-! ### Basic lemmas about the merge machinery -/

theorem mapAt_getElem? {α : Type} (p : Nat) (f : α → α) (l : List α) (j : Nat) :
    (mapAt p f l)[j]? = (l[j]?).map (fun a => if j = p then f a else a) := by
  induction l generalizing p j with
  | nil => simp [mapAt]
  | cons c cs ih =>
    cases p with
    | zero =>
      cases j with
      | zero => simp [mapAt]
      | succ j => simp [mapAt]
    | succ q =>
      cases j with
      | zero => simp [mapAt]
      | succ j => simpa [mapAt] using ih q j

theorem mapAt_length {α : Type} (p : Nat) (f : α → α) (l : List α) :
    (mapAt p f l).length = l.length := by
  induction l generalizing p with
  | nil => cases p <;> rfl
  | cons c cs ih =>
    cases p with
    | zero => simp [mapAt]
    | succ q => simp [mapAt, ih]

/-- When the right table's keys are pairwise distinct, at most one right
row can match a given key. -/
theorem filter_keyed_length_le_one {κ β : Type} [DecidableEq κ]
    (l : List (κ × β)) (k : κ) (h : (l.map Prod.fst).Nodup) :
    (l.filter (fun r => r.1 == k)).length ≤ 1 := by
  induction l with
  | nil => simp
  | cons a t ih =>
    simp only [List.map_cons, List.nodup_cons] at h
    by_cases hk : a.1 = k
    · have ht : t.filter (fun r => r.1 == k) = [] := by
        refine List.filter_eq_nil_iff.mpr ?_
        intro r hr
        have : r.1 ≠ k := by
          intro hrk
          exact h.1 (hk ▸ hrk ▸ List.mem_map_of_mem Prod.fst hr)
        simpa using this
      simp [List.filter_cons, hk, ht]
    · have := ih h.2
      simpa [List.filter_cons, hk] using this

/-- A left merge against a right table with pairwise-distinct keys
yields exactly one output row per left row, in left order. -/
theorem leftMerge_fst {κ β γ : Type} [DecidableEq κ] (keyOf : γ → κ)
    (left : List γ) (right : List (κ × β))
    (h : (right.map Prod.fst).Nodup) :
    (leftMerge keyOf left right).map Prod.fst = left := by
  induction left with
  | nil => rfl
  | cons g gs ih =>
    have hle := filter_keyed_length_le_one right (keyOf g) h
    cases hf : right.filter (fun r => r.1 == keyOf g) with
    | nil => simp [leftMerge, hf, ih]
    | cons m ms =>
      have hms : ms = [] := by
        rw [hf] at hle
        simpa using List.length_eq_zero.mp (Nat.le_zero.mp (Nat.succ_le_succ_iff.mp hle))
      subst hms
      simp [leftMerge, hf, ih]

/-- Every output row of a left merge extends some left row. -/
theorem leftMerge_mem {κ β γ : Type} [DecidableEq κ] (keyOf : γ → κ)
    (left : List γ) (right : List (κ × β)) {p : γ × Option β}
    (hp : p ∈ leftMerge keyOf left right) : p.1 ∈ left := by
  induction left with
  | nil => simp [leftMerge] at hp
  | cons g gs ih =>
    simp only [leftMerge, List.mem_append] at hp
    rcases hp with hp | hp
    · cases hf : right.filter (fun r => r.1 == keyOf g) with
      | nil =>
        rw [hf] at hp
        simp only [List.mem_singleton] at hp
        subst hp
        exact List.mem_cons_self _ _
      | cons m ms =>
        rw [hf] at hp
        simp only [List.mem_map] at hp
        obtain ⟨r, _, hr⟩ := hp
        subst hr
        exact List.mem_cons_self _ _
    · exact List.mem_cons_of_mem _ (ih hp)

theorem aggKeys_nodup (t : List SecRow) : (aggKeys t).Nodup := by
  unfold aggKeys
  exact (List.perm_insertionSort keyLE _).nodup_iff.mpr (List.nodup_dedup _)

theorem aggregate_fst (nc : Nat) (t : List SecRow) :
    (aggregate nc t).map Prod.fst = aggKeys t := by
  simp only [aggregate, List.map_map]
  exact List.map_id _

theorem applyCleanPrey_fst (p : Nat) (t : List (Coord × ProcPayload)) :
    (applyCleanPrey p t).map Prod.fst = t.map Prod.fst := by
  simp [applyCleanPrey]

theorem fillnaCol_keys (p : Nat) (t : List SecRow) :
    (fillnaCol p t).map (fun r => r.key) = t.map (fun r => r.key) := by
  simp [fillnaCol]

/-- The processed form of a secondary table always has pairwise-distinct
keys: either the duplicate check failed and the original keys were
already distinct, or aggregation collapsed each key to one row. -/
theorem processSecondary_keys_nodup (sp : SecSpec) (t0 : List SecRow) :
    ((processSecondary sp t0).map Prod.fst).Nodup := by
  unfold processSecondary
  cases hp : sp.preyIdx with
  | none =>
    by_cases hd : dupKeys t0
    · simpa [hd, aggregate_fst] using aggKeys_nodup t0
    · have : (t0.map (fun r => r.key)).Nodup := by
        have := of_decide_eq_false (Bool.of_not_eq_true hd)
        exact not_not.mp this
      simpa [hd, List.map_map, Function.comp] using this
  | some p =>
    by_cases hd : dupKeys (fillnaCol p t0)
    · simpa [hd, applyCleanPrey_fst, aggregate_fst] using aggKeys_nodup (fillnaCol p t0)
    · have : ((fillnaCol p t0).map (fun r => r.key)).Nodup := by
        have := of_decide_eq_false (Bool.of_not_eq_true hd)
        exact not_not.mp this
      simpa [hd, List.map_map, Function.comp] using this

theorem foodKeys_nodup (t : List FoodRow) : (foodKeys t).Nodup := by
  unfold foodKeys
  exact (List.perm_insertionSort _ _).nodup_iff.mpr (List.nodup_dedup _)

theorem foodAgg_fst (t : List FoodRow) :
    (foodAgg t).map Prod.fst = foodKeys t := by
  simp only [foodAgg, List.map_map]
  exact List.map_id _

/-- A secondary merge step preserves the base rows of the grid exactly
(no duplication, no dropping, order kept). -/
theorem mergeSecondary_fst (grid : List GridRow) (sp : SecSpec) (t : List SecRow) :
    (mergeSecondary grid sp t).map Prod.fst = grid.map Prod.fst := by
  unfold mergeSecondary
  have h := leftMerge_fst (fun g : GridRow => g.1.key) grid (processSecondary sp t)
    (processSecondary_keys_nodup sp t)
  calc ((leftMerge (fun g : GridRow => g.1.key) grid (processSecondary sp t)).map
          (fun gm => (gm.1.1, gm.1.2 ++ [gm.2]))).map Prod.fst
      = (leftMerge (fun g : GridRow => g.1.key) grid (processSecondary sp t)).map
          (fun gm => gm.1.1) := by simp
    _ = ((leftMerge (fun g : GridRow => g.1.key) grid (processSecondary sp t)).map
          Prod.fst).map Prod.fst := by simp
    _ = grid.map Prod.fst := by rw [h]

theorem runSecondaries_fst (secs : List (Option SecInput)) (grid : List GridRow) :
    (runSecondaries grid secs).map Prod.fst = grid.map Prod.fst := by
  induction secs generalizing grid with
  | nil => rfl
  | cons s rest ih =>
    cases s with
    | none => simpa [runSecondaries] using ih grid
    | some si =>
      calc (runSecondaries (mergeSecondary grid si.spec si.rows) rest).map Prod.fst
          = (mergeSecondary grid si.spec si.rows).map Prod.fst := ih _
        _ = grid.map Prod.fst := mergeSecondary_fst grid si.spec si.rows

theorem mergeFood_fst (grid : List GridRow) (t : List FoodRow) :
    (mergeFood grid t).map Prod.fst = grid := by
  refine leftMerge_fst (fun g : GridRow => g.1.biome) grid (foodAgg t) ?_
  rw [foodAgg_fst]
  exact foodKeys_nodup t

/-- The base-row components of the fused table are exactly the base
table, in order. -/
theorem pipeline_base_rows (base : List BaseRow) (secs : List (Option SecInput))
    (fw : Option (List FoodRow)) :
    (pipeline base secs fw).map (fun r => r.1.1) = base := by
  have hrun : (runSecondaries (initGrid base) secs).map Prod.fst = base := by
    rw [runSecondaries_fst]
    unfold initGrid
    rw [List.map_map]
    exact List.map_id _
  unfold pipeline
  cases fw with
  | none =>
    simpa using hrun
  | some t =>
    have h := mergeFood_fst (runSecondaries (initGrid base) secs) t
    calc (mergeFood (runSecondaries (initGrid base) secs) t).map (fun r => r.1.1)
        = ((mergeFood (runSecondaries (initGrid base) secs) t).map Prod.fst).map
            Prod.fst := by simp
      _ = base := by rw [h, hrun]

/-- Membership in `aggregate` determines the payload: the per-column
group lists. -/
theorem aggregate_mem_eq {nc : Nat} {t : List SecRow} {k : Coord} {pl : ProcPayload}
    (h : (k, pl) ∈ aggregate nc t) :
    pl = ProcPayload.listed ((List.range nc).map (fun j => some (colList t k j))) := by
  unfold aggregate at h
  obtain ⟨k1, _, heq⟩ := List.mem_map.mp h
  obtain ⟨rfl, h2⟩ := Prod.mk.inj heq
  exact h2.symm

/-- Membership in `foodAgg` determines the payload: the three group
lists of the biome. -/
theorem foodAgg_mem_eq {t : List FoodRow} {b : String} {fp : FoodPayload}
    (h : (b, fp) ∈ foodAgg t) :
    fp = ((foodGroup t b).map (fun r => r.predator),
          (foodGroup t b).map (fun r => r.prey),
          (foodGroup t b).map (fun r => r.strength)) := by
  unfold foodAgg at h
  obtain ⟨b1, _, heq⟩ := List.mem_map.mp h
  obtain ⟨rfl, h2⟩ := Prod.mk.inj heq
  exact h2.symm

/-- The aggregated keys are exactly the keys occurring in the table. -/
theorem mem_aggKeys {t : List SecRow} {k : Coord} :
    k ∈ aggKeys t ↔ k ∈ t.map (fun r => r.key) := by
  unfold aggKeys
  rw [(List.perm_insertionSort keyLE _).mem_iff, List.mem_dedup]

/-- `processSecondary` without a prey column, duplicate branch. -/
theorem processSecondary_plain_agg (nc : Nat) (t : List SecRow)
    (hdup : dupKeys t = true) :
    processSecondary ⟨nc, none⟩ t = aggregate nc t := by
  unfold processSecondary
  simp [hdup]

/-- `processSecondary` without a prey column, no-duplicate branch. -/
theorem processSecondary_plain_scalar (nc : Nat) (t : List SecRow)
    (hdup : dupKeys t = false) :
    processSecondary ⟨nc, none⟩ t
      = t.map (fun r => (r.key, ProcPayload.scalar r.vals)) := by
  unfold processSecondary
  simp [hdup]

/-- `processSecondary` with a prey column, duplicate branch. -/
theorem processSecondary_prey_agg (nc p : Nat) (t0 : List SecRow)
    (hdup : dupKeys (fillnaCol p t0) = true) :
    processSecondary ⟨nc, some p⟩ t0
      = applyCleanPrey p (aggregate nc (fillnaCol p t0)) := by
  unfold processSecondary
  simp [hdup]

/-- `fillna` commutes with grouping: the group of a normalized table is
the normalized group. -/
theorem groupRows_fillnaCol (p : Nat) (t0 : List SecRow) (k : Coord) :
    groupRows (fillnaCol p t0) k
      = (groupRows t0 k).map (fun r => ⟨r.key, mapAt p fillnaVal r.vals⟩) := by
  unfold groupRows fillnaCol
  rw [List.filter_map]
  rfl

/-! ### Claim theorems -/

/-- C1: for every run of the fusion pipeline — any base grid, any
combination of present and absent secondary sources, with or without
the food-web source — the fused rows carry exactly the base rows in
order, so the row count equals the base row count and the (row, col)
pairs of the output are exactly the base pairs (without duplicates
whenever the base keys are distinct); moreover the invariant is
preserved by every individual left-merge step, secondary and food-web
alike. -/
theorem C1_row_count_and_identity (base : List BaseRow)
    (secs : List (Option SecInput)) (fw : Option (List FoodRow)) :
    ((pipeline base secs fw).map (fun r => r.1.1) = base
      ∧ (pipeline base secs fw).length = base.length
      ∧ (pipeline base secs fw).map (fun r => r.1.1.key) = base.map (fun b => b.key)
      ∧ ((base.map (fun b => b.key)).Nodup →
          ((pipeline base secs fw).map (fun r => r.1.1.key)).Nodup))
    ∧ (∀ (grid : List GridRow) (sp : SecSpec) (t : List SecRow),
        (mergeSecondary grid sp t).map Prod.fst = grid.map Prod.fst)
    ∧ (∀ (grid : List GridRow) (ft : List FoodRow),
        (mergeFood grid ft).map Prod.fst = grid) := by
  have hbase := pipeline_base_rows base secs fw
  have hlen : (pipeline base secs fw).length = base.length := by
    have := congrArg List.length hbase
    simpa using this
  have hkeys : (pipeline base secs fw).map (fun r => r.1.1.key)
      = base.map (fun b => b.key) := by
    have h2 : (pipeline base secs fw).map
        ((fun b : BaseRow => b.key) ∘ (fun r : FullRow => r.1.1))
        = base.map (fun b => b.key) := by
      rw [← List.map_map, hbase]
    exact h2
  refine ⟨⟨hbase, hlen, hkeys, ?_⟩, mergeSecondary_fst, mergeFood_fst⟩
  intro hnd
  rw [hkeys]
  exact hnd

/-- C1 witness: the theorem applied to the concrete example run, with
the distinct-base-keys hypothesis discharged there. -/
theorem C1_row_count_and_identity_witness :
    (pipeline exBase exSecs (some exFood)).map (fun r => r.1.1) = exBase
      ∧ ((pipeline exBase exSecs (some exFood)).map (fun r => r.1.1.key)).Nodup := by
  have h := C1_row_count_and_identity exBase exSecs (some exFood)
  exact ⟨h.1.1, h.1.2.2.2 (by decide)⟩

/-- C5 (amended): a merge step can never duplicate or drop base-grid
rows, even when fed a corrupt secondary source with duplicated keys,
because a duplicate-keyed table is aggregated to one row per key before
the left join; the pipeline performs no explicit detection and raises
no fatal error — a corrupt source is processed normally rather than
rejected. -/
theorem C5_corrupt_source_cannot_violate_cardinality (grid : List GridRow)
    (sp : SecSpec) (t : List SecRow) (_hcorrupt : dupKeys t = true) :
    (mergeSecondary grid sp t).map Prod.fst = grid.map Prod.fst
      ∧ (mergeSecondary grid sp t).length = grid.length := by
  refine ⟨mergeSecondary_fst grid sp t, ?_⟩
  have := congrArg List.length (mergeSecondary_fst grid sp t)
  simpa using this

/-- C5 witness: the amended theorem applied to the corrupt hazards
table. -/
theorem C5_corrupt_source_cannot_violate_cardinality_witness :
    (mergeSecondary (initGrid exBase) exHazSpec exHazards).map Prod.fst
        = (initGrid exBase).map Prod.fst
      ∧ (mergeSecondary (initGrid exBase) exHazSpec exHazards).length
        = (initGrid exBase).length :=
  C5_corrupt_source_cannot_violate_cardinality (initGrid exBase) exHazSpec exHazards
    (by decide)

/-- C5 counterexample: with a corrupt secondary source — the hazards
table keys cell (0, 0) twice — the run completes normally: the corrupt
table is silently aggregated and merged, the base rows survive intact
and a fused output table is produced.  No join-cardinality violation is
detected and nothing is treated as a fatal error, refuting the claim as
stated. -/
theorem C5_counterexample :
    dupKeys exHazards = true
      ∧ mainProgram (some exBase) [some ⟨exHazSpec, exHazards⟩] none
        = some [((⟨(0, 0), "trench", [Value.int 4000]⟩,
                   [some (ProcPayload.listed
                     [some [Value.str "vent", Value.str "quake"]])]), none),
                ((⟨(0, 1), "reef", [Value.int 200]⟩, [none]), none)] :=
  ⟨by decide,
   congrArg some (by decide :
     pipeline exBase [some ⟨exHazSpec, exHazards⟩] none
       = [((⟨(0, 0), "trench", [Value.int 4000]⟩,
             [some (ProcPayload.listed
               [some [Value.str "vent", Value.str "quake"]])]), none),
           ((⟨(0, 1), "reef", [Value.int 200]⟩, [none]), none)])⟩

/-- C2: after aggregation, every list-valued column of a category holds
the per-column group list, so on any cell all of the category's columns
have equal length and the i-th elements of all columns originate from
the same source record (the i-th row of the cell's group, in source
order); the same alignment holds for the biome-keyed food-web group's
predator, prey and interaction-strength lists. -/
theorem C2_positional_alignment (nc : Nat) (t : List SecRow) (k : Coord)
    (pl : ProcPayload) (hmem : (k, pl) ∈ aggregate nc t) :
    (pl = ProcPayload.listed ((List.range nc).map (fun j => some (colList t k j)))
      ∧ ∀ j j1 : Nat, (colList t k j).length = (colList t k j1).length
          ∧ ∀ i : Nat, (colList t k j)[i]? = ((groupRows t k)[i]?).map (colOf j))
    ∧ (∀ (ft : List FoodRow) (b : String) (fp : FoodPayload),
        (b, fp) ∈ foodAgg ft →
          fp.1.length = fp.2.1.length
          ∧ fp.1.length = fp.2.2.length
          ∧ ∀ i : Nat, fp.1[i]? = ((foodGroup ft b)[i]?).map (fun r => r.predator)
              ∧ fp.2.1[i]? = ((foodGroup ft b)[i]?).map (fun r => r.prey)
              ∧ fp.2.2[i]? = ((foodGroup ft b)[i]?).map (fun r => r.strength)) := by
  refine ⟨⟨aggregate_mem_eq hmem, ?_⟩, ?_⟩
  · intro j j1
    constructor
    · unfold colList
      simp
    · intro i
      unfold colList
      rw [List.getElem?_map]
  · intro ft b fp hfp
    have h := foodAgg_mem_eq hfp
    rw [h]
    refine ⟨by simp, by simp, ?_⟩
    intro i
    refine ⟨?_, ?_, ?_⟩ <;> simp [List.getElem?_map]

/-- C2 witness: the theorem applied to the concrete hazards table and
the concrete food web. -/
theorem C2_positional_alignment_witness :
    ProcPayload.listed [some [Value.str "vent", Value.str "quake"]]
      = ProcPayload.listed
          ((List.range 1).map (fun j => some (colList exHazards (0, 0) j)))
      ∧ ([Value.str "eel", Value.str "worm"] : List Value).length
        = ([Value.str "shrimp", Value.str "detritus"] : List Value).length := by
  have h := C2_positional_alignment 1 exHazards (0, 0)
    (ProcPayload.listed [some [Value.str "vent", Value.str "quake"]]) (by decide)
  have hf := h.2 exFood "trench"
    ([Value.str "eel", Value.str "worm"],
     [Value.str "shrimp", Value.str "detritus"],
     [Value.int 1, Value.int 2]) (by decide)
  exact ⟨h.1.1, hf.1⟩

/-- C3: in the aggregation branch of the life table, a cell whose raw
prey entries are all empty (null or the empty-string sentinel, which
`fillna` turns into the sentinel) gets an explicit null prey cell —
`none`, not an empty list and not a list of empty strings. -/
theorem C3_prey_null_collapse (nc p : Nat) (t0 : List SecRow) (k : Coord)
    (hp : p < nc)
    (hdup : dupKeys (fillnaCol p t0) = true)
    (hk : k ∈ t0.map (fun r => r.key))
    (hw : ∀ r ∈ t0, p < r.vals.length)
    (hempty : ∀ r ∈ t0, r.key = k →
        colOf p r = Value.null ∨ colOf p r = Value.str "") :
    ∃ cols, (k, ProcPayload.listed cols) ∈ processSecondary ⟨nc, some p⟩ t0
      ∧ cols[p]? = some none
      ∧ ∀ xs : List Value, cols[p]? ≠ some (some xs) := by
  have hall : (colList (fillnaCol p t0) k p).all
      (fun x => x == Value.str "") = true := by
    rw [List.all_eq_true]
    intro x hx
    unfold colList at hx
    rw [groupRows_fillnaCol, List.map_map] at hx
    obtain ⟨r, hr, hrx⟩ := List.mem_map.mp hx
    have hrt : r ∈ t0 := (List.mem_filter.mp hr).1
    have hrk : r.key = k := by
      have := (List.mem_filter.mp hr).2
      simpa using this
    have hlt : p < r.vals.length := hw r hrt
    have hsome : r.vals[p]? = some r.vals[p] := List.getElem?_eq_getElem hlt
    have hcolr : colOf p r = r.vals[p] := by
      unfold colOf
      rw [List.getD_eq_getElem?_getD, hsome]
      rfl
    have hgp : (mapAt p fillnaVal r.vals)[p]? = some (fillnaVal r.vals[p]) := by
      rw [mapAt_getElem?, hsome]
      simp
    have hxval : x = fillnaVal r.vals[p] := by
      rw [← hrx]
      show colOf p (⟨r.key, mapAt p fillnaVal r.vals⟩ : SecRow)
          = fillnaVal r.vals[p]
      unfold colOf
      rw [List.getD_eq_getElem?_getD, hgp]
      rfl
    have hemp := hempty r hrt hrk
    rw [hcolr] at hemp
    rw [hxval]
    rcases hemp with hemp | hemp <;> rw [hemp] <;> rfl
  have hkagg : k ∈ aggKeys (fillnaCol p t0) := by
    rw [mem_aggKeys, fillnaCol_keys]
    exact hk
  have hmem1 : (k, ProcPayload.listed ((List.range nc).map
      (fun j => some (colList (fillnaCol p t0) k j))))
      ∈ aggregate nc (fillnaCol p t0) := by
    unfold aggregate
    exact List.mem_map.mpr ⟨k, hkagg, rfl⟩
  have hmem2 : (k, ProcPayload.listed (mapAt p clean_prey ((List.range nc).map
      (fun j => some (colList (fillnaCol p t0) k j)))))
      ∈ applyCleanPrey p (aggregate nc (fillnaCol p t0)) := by
    unfold applyCleanPrey
    exact List.mem_map.mpr ⟨_, hmem1, rfl⟩
  refine ⟨mapAt p clean_prey ((List.range nc).map
      (fun j => some (colList (fillnaCol p t0) k j))), ?_, ?_, ?_⟩
  · rw [processSecondary_prey_agg nc p t0 hdup]
    exact hmem2
  · rw [mapAt_getElem?, List.getElem?_map, List.getElem?_range hp]
    have hcp : clean_prey (some (colList (fillnaCol p t0) k p)) = none := by
      simp [clean_prey, hall]
    simp [hcp]
  · intro xs
    rw [mapAt_getElem?, List.getElem?_map, List.getElem?_range hp]
    have hcp : clean_prey (some (colList (fillnaCol p t0) k p)) = none := by
      simp [clean_prey, hall]
    simp [hcp]

/-- C3 witness: the theorem applied to the concrete life table whose
cell (0, 0) has one null and one empty-string prey entry. -/
theorem C3_prey_null_collapse_witness :
    ∃ cols, ((0, 0), ProcPayload.listed cols) ∈ processSecondary ⟨2, some 1⟩ exLife
      ∧ cols[1]? = some none
      ∧ ∀ xs : List Value, cols[1]? ≠ some (some xs) :=
  C3_prey_null_collapse 2 1 exLife (0, 0) (by decide) (by decide) (by decide)
    (by decide) (by decide)

/-- C4: the duplicate gate — if a secondary table has any duplicated
(row, col) key, every non-key column of every present coordinate is
collapsed into the ordered list of its group values in original
source-row order (a coordinate with exactly one record yields singleton
lists); if the table has no duplicate key at all, aggregation is
skipped and every row keeps its scalar columns unchanged. -/
theorem C4_duplicate_gate (nc : Nat) (t : List SecRow) :
    (dupKeys t = true →
      processSecondary ⟨nc, none⟩ t = aggregate nc t
      ∧ (∀ k, k ∈ t.map (fun r => r.key) →
          (k, ProcPayload.listed ((List.range nc).map
            (fun j => some (colList t k j)))) ∈ processSecondary ⟨nc, none⟩ t)
      ∧ (∀ k r j, groupRows t k = [r] → colList t k j = [colOf j r]))
    ∧ (dupKeys t = false →
        processSecondary ⟨nc, none⟩ t
          = t.map (fun r => (r.key, ProcPayload.scalar r.vals))) := by
  constructor
  · intro hdup
    refine ⟨processSecondary_plain_agg nc t hdup, ?_, ?_⟩
    · intro k hkmem
      rw [processSecondary_plain_agg nc t hdup]
      unfold aggregate
      exact List.mem_map.mpr ⟨k, mem_aggKeys.mpr hkmem, rfl⟩
    · intro k r j hsingle
      unfold colList
      rw [hsingle]
      rfl
  · intro hdup
    exact processSecondary_plain_scalar nc t hdup

/-- C4 witness: the theorem applied to the duplicate-keyed hazards
table and to a duplicate-free table. -/
theorem C4_duplicate_gate_witness :
    processSecondary ⟨1, none⟩ exHazards = aggregate 1 exHazards
      ∧ processSecondary ⟨1, none⟩ exNoDup
        = exNoDup.map (fun r => (r.key, ProcPayload.scalar r.vals)) :=
  ⟨((C4_duplicate_gate 1 exHazards).1 (by decide)).1,
   (C4_duplicate_gate 1 exNoDup).2 (by decide)⟩


/-- A merged row's payload list is one longer than that of the grid row
it extends. -/
theorem mergeSecondary_extras (grid : List GridRow) (sp : SecSpec)
    (t : List SecRow) {g : GridRow} (hg : g ∈ mergeSecondary grid sp t) :
    ∃ g0 ∈ grid, g.2.length = g0.2.length + 1 := by
  unfold mergeSecondary at hg
  obtain ⟨gm, hgm, hge⟩ := List.mem_map.mp hg
  refine ⟨gm.1, leftMerge_mem _ grid _ hgm, ?_⟩
  rw [← hge]
  simp

/-- After the secondary loop, every row carries exactly one payload
slot per present source (missing sources contribute nothing). -/
theorem runSecondaries_extras (secs : List (Option SecInput))
    (grid : List GridRow) (n : Nat) (h : ∀ g ∈ grid, g.2.length = n) :
    ∀ g ∈ runSecondaries grid secs, g.2.length = n + (secs.filterMap id).length := by
  induction secs generalizing grid n with
  | nil =>
    intro g hg
    simpa using h g hg
  | cons s rest ih =>
    cases s with
    | none =>
      intro g hg
      simpa using ih grid n h g hg
    | some si =>
      intro g hg
      have h1 : ∀ g1 ∈ mergeSecondary grid si.spec si.rows, g1.2.length = n + 1 := by
        intro g1 hg1
        obtain ⟨g0, hg0, hlen⟩ := mergeSecondary_extras grid si.spec si.rows hg1
        rw [hlen, h g0 hg0]
      have h2 := ih (mergeSecondary grid si.spec si.rows) (n + 1) h1 g hg
      rw [h2]
      simp [List.filterMap_cons]
      omega

/-- Every fused row carries exactly one payload slot per present
secondary source. -/
theorem pipeline_extras (base : List BaseRow) (secs : List (Option SecInput))
    (fw : Option (List FoodRow)) {r : FullRow} (hr : r ∈ pipeline base secs fw) :
    r.1.2.length = (secs.filterMap id).length := by
  have hinit : ∀ g ∈ initGrid base, g.2.length = 0 := by
    intro g hg
    obtain ⟨b, _, hbe⟩ := List.mem_map.mp hg
    rw [← hbe]
    rfl
  have hrun := runSecondaries_extras secs (initGrid base) 0 hinit
  unfold pipeline at hr
  cases fw with
  | none =>
    obtain ⟨g, hg, hge⟩ := List.mem_map.mp hr
    have := hrun g hg
    rw [← hge]
    simpa using this
  | some t =>
    have h1 : r.1 ∈ runSecondaries (initGrid base) secs :=
      leftMerge_mem _ _ _ hr
    simpa using hrun r.1 h1

/-- C6: the pipeline never fails for a missing optional source — with
any combination of present and absent secondary and food-web sources it
completes and simply omits the absent categories' columns (each fused
row carries exactly one payload slot per present source) — while a
missing mandatory base table halts the run and produces no output. -/
theorem C6_loader_contract (secs : List (Option SecInput))
    (fw : Option (List FoodRow)) :
    mainProgram none secs fw = none
    ∧ (∀ base, mainProgram (some base) secs fw = some (pipeline base secs fw))
    ∧ (∀ base (r : FullRow), r ∈ pipeline base secs fw →
        r.1.2.length = (secs.filterMap id).length) :=
  ⟨rfl, fun _ => rfl, fun base _ hr => pipeline_extras base secs fw hr⟩

/-- C6 witness: the missing-base run yields no output; the run with one
present and one absent secondary source completes, and its first fused
row has exactly one secondary payload slot. -/
theorem C6_loader_contract_witness :
    mainProgram none exSecs (some exFood) = none
      ∧ mainProgram (some exBase) exSecs (some exFood)
        = some (pipeline exBase exSecs (some exFood))
      ∧ (((⟨(0, 0), "trench", [Value.int 4000]⟩,
            [some (ProcPayload.listed [some [Value.str "vent", Value.str "quake"]])]),
           some ([Value.str "eel", Value.str "worm"],
                 [Value.str "shrimp", Value.str "detritus"],
                 [Value.int 1, Value.int 2])) : FullRow).1.2.length
        = (exSecs.filterMap id).length := by
  have h := C6_loader_contract exSecs (some exFood)
  exact ⟨h.1, h.2.1 exBase, h.2.2 exBase _ (by decide)⟩

/-! ### Lemmas about the list-literal encoding and parsers -/

theorem string_mk_data (x : String) : String.mk x.data = x := rfl

theorem reprChars_append (y : String) (rest : List Char) :
    reprChars y ++ rest = sq :: (y.data ++ sq :: rest) := by
  simp [reprChars]

theorem plainChar_ne_sq {c : Char} (h : plainChar c = true) : c ≠ sq := by
  intro hc
  rw [hc] at h
  rw [show plainChar sq = false from by decide] at h
  exact absurd h (by decide)

theorem skipSpaces_cons_of_ne {c : Char} (l : List Char)
    (h : (c == ' ') = false) : skipSpaces (c :: l) = c :: l := by
  simp [skipSpaces, List.dropWhile_cons, h]

theorem spanNotQuote_append (a rest : List Char) (h : ∀ c ∈ a, c ≠ sq) :
    spanNotQuote (a ++ sq :: rest) = some (a, rest) := by
  induction a with
  | nil => simp [spanNotQuote]
  | cons c cs ih =>
    have hc : c ≠ sq := h c (List.mem_cons_self _ _)
    simp [spanNotQuote, hc, ih (fun x hx => h x (List.mem_cons_of_mem _ hx))]

theorem parseAtom_repr (y : String) (rest : List Char) (h : plainStr y = true) :
    parseAtom (reprChars y ++ rest) = some (Atom.s y, rest) := by
  have hq : ∀ c ∈ y.data, c ≠ sq := fun c hc =>
    plainChar_ne_sq (List.all_eq_true.mp h c hc)
  rw [reprChars_append]
  simp [parseAtom, spanNotQuote_append y.data rest hq, string_mk_data]

/-- One unfolding step of the fueled tail parser. -/
theorem parseTail_succ (f : Nat) (l : List Char) :
    parseTail (f + 1) l
      = if skipSpaces l = [']'] then some []
        else
          match skipSpaces l with
          | [] => none
          | c :: rest =>
            if c = ',' then
              match parseAtom (skipSpaces rest) with
              | some (a, r) => (parseTail f r).map (fun xs => a :: xs)
              | none => none
            else none := rfl

theorem parseTail_encodeTail (xs : List String) (fuel : Nat)
    (hf : xs.length < fuel) (h : ∀ x ∈ xs, plainStr x = true) :
    parseTail fuel (encodeTailChars xs) = some (xs.map Atom.s) := by
  induction xs generalizing fuel with
  | nil =>
    cases fuel with
    | zero => exact absurd hf (by omega)
    | succ f =>
      rw [parseTail_succ]
      rw [show skipSpaces (encodeTailChars []) = [']'] from rfl]
      simp
  | cons y ys ih =>
    cases fuel with
    | zero => exact absurd hf (by omega)
    | succ f =>
      have hy : plainStr y = true := h y (List.mem_cons_self _ _)
      have hys : ∀ x ∈ ys, plainStr x = true :=
        fun x hx => h x (List.mem_cons_of_mem _ hx)
      have hskip1 : skipSpaces (encodeTailChars (y :: ys))
          = ',' :: ' ' :: (reprChars y ++ encodeTailChars ys) :=
        skipSpaces_cons_of_ne _ (by decide)
      have hne : (',' :: ' ' :: (reprChars y ++ encodeTailChars ys)) ≠ [']'] := by
        intro he
        injection he with h1 _
        exact absurd h1 (by decide)
      have hskip2 : skipSpaces (' ' :: (reprChars y ++ encodeTailChars ys))
          = reprChars y ++ encodeTailChars ys := by
        rw [reprChars_append]
        show List.dropWhile _ (' ' :: sq :: _) = _
        rw [List.dropWhile_cons_of_pos (by decide),
          List.dropWhile_cons_of_neg (by decide)]
      rw [parseTail_succ, hskip1, if_neg hne]
      show (if ',' = ',' then
          match parseAtom (skipSpaces (' ' :: (reprChars y ++ encodeTailChars ys))) with
          | some (a, r) => (parseTail f r).map (fun zs => a :: zs)
          | none => none
        else none) = some ((y :: ys).map Atom.s)
      rw [if_pos rfl, hskip2, parseAtom_repr y _ hy]
      show (parseTail f (encodeTailChars ys)).map (fun zs => Atom.s y :: zs)
          = some ((y :: ys).map Atom.s)
      rw [ih f (by simpa using Nat.lt_of_succ_lt_succ hf) hys]
      rfl

theorem encodeTailChars_length (xs : List String) :
    xs.length ≤ (encodeTailChars xs).length := by
  induction xs with
  | nil => simp [encodeTailChars]
  | cons z zs ihz =>
    simp only [encodeTailChars, List.length_cons, List.length_append]
    omega

theorem parseItems_encode (xs : List String) (h : ∀ x ∈ xs, plainStr x = true) :
    parseItems (encodeElemsChars xs) = some (xs.map Atom.s) := by
  cases xs with
  | nil =>
    unfold parseItems
    rw [show skipSpaces (encodeElemsChars []) = [']'] from rfl]
    simp
  | cons y ys =>
    have hy : plainStr y = true := h y (List.mem_cons_self _ _)
    have hys : ∀ x ∈ ys, plainStr x = true :=
      fun x hx => h x (List.mem_cons_of_mem _ hx)
    have hrepr : encodeElemsChars (y :: ys) = reprChars y ++ encodeTailChars ys := rfl
    have hskip : skipSpaces (encodeElemsChars (y :: ys))
        = encodeElemsChars (y :: ys) := by
      rw [hrepr, reprChars_append]
      exact skipSpaces_cons_of_ne _ (by decide)
    have hne : encodeElemsChars (y :: ys) ≠ [']'] := by
      rw [hrepr, reprChars_append]
      intro he
      injection he with h1 _
      exact absurd h1 (by decide)
    unfold parseItems
    rw [hskip, if_neg hne, hrepr, parseAtom_repr y _ hy]
    show (parseTail ((encodeTailChars ys).length + 1) (encodeTailChars ys)).map
        (fun zs => Atom.s y :: zs) = some ((y :: ys).map Atom.s)
    have hlen : ys.length < (encodeTailChars ys).length + 1 := by
      have := encodeTailChars_length ys
      omega
    rw [parseTail_encodeTail ys _ hlen hys]
    rfl

theorem pyReprList_data (xs : List String) :
    (pyReprList xs).data = '[' :: encodeElemsChars xs := rfl

theorem parseListLit_pyReprList (xs : List String)
    (h : ∀ x ∈ xs, plainStr x = true) :
    parseListLit (pyReprList xs) = some (xs.map Atom.s) := by
  show parseItems (encodeElemsChars xs) = some (xs.map Atom.s)
  exact parseItems_encode xs h

theorem pyReprList_ne_empty (xs : List String) : pyReprList xs ≠ "" := by
  intro he
  have h2 : (pyReprList xs).data = [] := by rw [he]
  rw [pyReprList_data] at h2
  cases h2

theorem startsBracket_pyReprList (xs : List String) :
    startsBracket (pyReprList xs) = true := by
  simp [startsBracket, pyReprList_data]

theorem encodeTailChars_ne_nil (xs : List String) : encodeTailChars xs ≠ [] := by
  cases xs <;> simp [encodeTailChars]

theorem encodeElemsChars_ne_nil (xs : List String) : encodeElemsChars xs ≠ [] := by
  cases xs <;> simp [encodeElemsChars, reprChars]

theorem encodeTailChars_getLast? (xs : List String) :
    (encodeTailChars xs).getLast? = some ']' := by
  induction xs with
  | nil => rfl
  | cons y ys ih =>
    show ((',' :: ' ' :: reprChars y) ++ encodeTailChars ys).getLast? = some ']'
    rw [List.getLast?_append_of_ne_nil _ (encodeTailChars_ne_nil ys)]
    exact ih

theorem encodeElemsChars_getLast? (xs : List String) :
    (encodeElemsChars xs).getLast? = some ']' := by
  cases xs with
  | nil => rfl
  | cons y ys =>
    show (reprChars y ++ encodeTailChars ys).getLast? = some ']'
    rw [List.getLast?_append_of_ne_nil _ (encodeTailChars_ne_nil ys)]
    exact encodeTailChars_getLast? ys

theorem endsBracket_pyReprList (xs : List String) :
    endsBracket (pyReprList xs) = true := by
  unfold endsBracket
  rw [pyReprList_data]
  rw [show ('[' :: encodeElemsChars xs) = ['['] ++ encodeElemsChars xs from rfl]
  rw [List.getLast?_append_of_ne_nil _ (encodeElemsChars_ne_nil xs)]
  rw [encodeElemsChars_getLast?]
  rfl

/-- Decoding the persisted form of a list of plain strings with the
query tool's parser gives back exactly the original elements. -/
theorem safe_parse_list_pyReprList (xs : List String)
    (h : ∀ x ∈ xs, plainStr x = true) :
    safe_parse_list (CsvCell.s (pyReprList xs)) = xs.map Atom.s := by
  have hne : pyReprList xs ≠ "" := pyReprList_ne_empty xs
  unfold safe_parse_list
  rw [if_neg (by simp [pd_isna, hne])]
  simp [startsBracket_pyReprList, endsBracket_pyReprList, parseListLit_pyReprList xs h]

/-- C7 (amended): encoding a list of plain strings and decoding it with
the consumer's parser reproduces the original ordered values exactly,
including the empty list, and the list encoding is distinct from the
null encoding; but null itself does not round-trip — it is persisted as
the empty field, exactly like the empty string, and decodes to the
empty list rather than to null. -/
theorem C7_round_trip (xs : List String) (h : ∀ x ∈ xs, plainStr x = true) :
    roundTrip (OutCell.strList xs) = xs.map Atom.s
      ∧ to_csv_cell (OutCell.strList xs) ≠ to_csv_cell OutCell.null
      ∧ roundTrip OutCell.null = ([] : List Atom) := by
  refine ⟨?_, ?_, by decide⟩
  · unfold roundTrip to_csv_cell read_csv_cell
    rw [if_neg (pyReprList_ne_empty xs)]
    exact safe_parse_list_pyReprList xs h
  · intro he
    exact pyReprList_ne_empty xs he

/-- C7 witness: the round trip applied to a concrete two-element list
and to the empty list. -/
theorem C7_round_trip_witness :
    roundTrip (OutCell.strList ["eel", "worm"]) = [Atom.s "eel", Atom.s "worm"]
      ∧ roundTrip (OutCell.strList []) = ([] : List Atom) :=
  ⟨(C7_round_trip ["eel", "worm"] (by decide)).1,
   (C7_round_trip [] (by decide)).1⟩

/-- C7 counterexample: null is not encoded distinctly from the empty
string — both become an empty CSV field — and decoding the persisted
null yields the empty list, not null, so the round trip does not
reproduce null. -/
theorem C7_counterexample :
    to_csv_cell OutCell.null = to_csv_cell (OutCell.s "")
      ∧ roundTrip OutCell.null = ([] : List Atom) :=
  ⟨rfl, by decide⟩

/-- C8 (amended): the query tool's parser substitutes the empty list
for every malformed list-like value, and the map service's parser does
so only when the value (after stripping) is bracket-delimited but fails
to parse; for list-like text that is not bracket-delimited (such as
"[1,2") the map service's parser returns the text itself.  Neither
parser ever raises — both are total and always return a recovery
value. -/
theorem C8_malformed_recovery (x s : String)
    (hx1 : startsBracket x = true)
    (hx2 : endsBracket x = false ∨ parseListLit x = none)
    (hs0 : s ≠ "")
    (hs1 : startsBracket (pyStrip s) = true)
    (hs2 : endsBracket (pyStrip s) = true)
    (hs3 : parseListLit (pyStrip s) = none) :
    safe_parse_list (CsvCell.s x) = [] ∧ safe_eval s = EvalR.lst [] := by
  constructor
  · have hxne : x ≠ "" := by
      intro he
      rw [he] at hx1
      exact absurd hx1 (by decide)
    unfold safe_parse_list
    rw [if_neg (by simp [pd_isna, hxne])]
    rcases hx2 with hx2 | hx2
    · simp [hx2]
    · by_cases hend : endsBracket x = true
      · simp [hx1, hend, hx2]
      · rw [Bool.not_eq_true] at hend
        simp [hend]
  · unfold safe_eval
    rw [if_neg hs0]
    simp [hs1, hs2, hs3]

/-- C8 witness: the amended theorem applied to the malformed values
"[1,2" (query side) and "[,]" (map side). -/
theorem C8_malformed_recovery_witness :
    safe_parse_list (CsvCell.s "[1,2") = [] ∧ safe_eval "[,]" = EvalR.lst [] :=
  C8_malformed_recovery "[1,2" "[,]" (by decide) (Or.inl (by decide))
    (by decide) (by decide) (by decide) (by decide)

/-- C8 counterexample: the map service's parser does not substitute an
empty list for the malformed list-like value "[1,2" — it returns the
text itself — refuting the claim that every consumer parser recovers
with an empty list. -/
theorem C8_counterexample :
    safe_eval "[1,2" = EvalR.txt "[1,2"
      ∧ EvalR.txt "[1,2" ≠ EvalR.lst [] :=
  ⟨by decide, by decide⟩

/-- C9 (amended): the query tool validates only that `result_rows` was
assigned.  An execution exception is caught and reported as a
descriptive error string; a run that never assigned `result_rows`
yields a descriptive error string; and any assigned value — whatever
its shape, key-bearing or not — is returned as a valid tool result
without any shape validation. -/
theorem C9_query_result_shape (o : ExecOutcome) :
    (∀ m, o = ExecOutcome.raises m →
        query_data o = ToolReturn.err ("Execution Error: " ++ m))
    ∧ (o = ExecOutcome.finishes none →
        query_data o
          = ToolReturn.err "Error: Code did not assign result_rows variable.")
    ∧ (∀ v, o = ExecOutcome.finishes (some v) → query_data o = ToolReturn.ok v) := by
  refine ⟨?_, ?_, ?_⟩
  · intro m hm
    rw [hm]
    rfl
  · intro hm
    rw [hm]
    rfl
  · intro v hm
    rw [hm]
    rfl

/-- C9 witness: the three behaviours at concrete outcomes. -/
theorem C9_query_result_shape_witness :
    query_data (ExecOutcome.raises "KeyError")
        = ToolReturn.err ("Execution Error: " ++ "KeyError")
      ∧ query_data (ExecOutcome.finishes none)
        = ToolReturn.err "Error: Code did not assign result_rows variable."
      ∧ query_data (ExecOutcome.finishes (some (PyObj.scalar "42")))
        = ToolReturn.ok (PyObj.scalar "42") :=
  ⟨(C9_query_result_shape (ExecOutcome.raises "KeyError")).1 "KeyError" rfl,
   (C9_query_result_shape (ExecOutcome.finishes none)).2.1 rfl,
   (C9_query_result_shape (ExecOutcome.finishes (some (PyObj.scalar "42")))).2.2
     (PyObj.scalar "42") rfl⟩

/-- C9 counterexample: a `result_rows` value that is not a key-bearing
record list — here a record missing the col key — is returned by the
tool as a valid result, not reported as an input error, refuting the
claimed shape requirement. -/
theorem C9_counterexample :
    keyBearing (PyObj.records [[("row", 1)]]) = false
      ∧ query_data (ExecOutcome.finishes (some (PyObj.records [[("row", 1)]])))
        = ToolReturn.ok (PyObj.records [[("row", 1)]]) :=
  ⟨by decide, rfl⟩

/-- C10: in every configured list column present in the table, the
load step replaces each cell by its `safe_parse_list` image, and
`safe_parse_list` maps every value that is not a bracket-delimited
string parsing as a list literal — null/NaN, the empty string, numeric
scalars left by a category that skipped aggregation, and any other
non-conforming string — to the empty list. -/
theorem C10_load_step_coercion (listCols : List String)
    (df : List (String × List CsvCell)) (name : String) (cells : List CsvCell) :
    ((name, cells) ∈ df → name ∈ listCols →
      (name, cells.map (fun c => DfCell.parsed (safe_parse_list c)))
        ∈ loadListColumns listCols df)
    ∧ (∀ c : CsvCell,
        (¬ ∃ x ys, c = CsvCell.s x ∧ (startsBracket x && endsBracket x) = true
            ∧ parseListLit x = some ys) →
        safe_parse_list c = [])
    ∧ safe_parse_list CsvCell.na = []
    ∧ safe_parse_list (CsvCell.s "") = []
    ∧ (∀ q : Int, safe_parse_list (CsvCell.num q) = []) := by
  refine ⟨?_, ?_, by decide, by decide, fun q => rfl⟩
  · intro hmem hin
    unfold loadListColumns
    refine List.mem_map.mpr ⟨(name, cells), hmem, ?_⟩
    simp [hin]
  · intro c hc
    match c with
    | CsvCell.na => rfl
    | CsvCell.num q => rfl
    | CsvCell.s x =>
      by_cases hxe : x = ""
      · rw [hxe]
        decide
      · unfold safe_parse_list
        rw [if_neg (by simp [pd_isna, hxe])]
        by_cases hb : (startsBracket x && endsBracket x) = true
        · cases hp : parseListLit x with
          | none => simp [hb, hp]
          | some ys => exact absurd ⟨x, ys, rfl, hb, hp⟩ hc
        · rw [Bool.not_eq_true] at hb
          simp [hb]

/-- C10 witness: the load step applied to a concrete dataframe whose
hazard column holds a NaN, an empty string, a scalar number, a plain
string and a malformed bracketed string — all coerced to the empty
list. -/
theorem C10_load_step_coercion_witness :
    ("hazard_type",
      [DfCell.parsed [], DfCell.parsed [], DfCell.parsed [],
       DfCell.parsed [], DfCell.parsed []])
      ∈ loadListColumns ["hazard_type"]
        [("hazard_type",
          [CsvCell.na, CsvCell.s "", CsvCell.num 3, CsvCell.s "vent",
           CsvCell.s "[1,2"])]
      ∧ safe_parse_list (CsvCell.s "vent") = [] := by
  have h := C10_load_step_coercion ["hazard_type"]
    [("hazard_type",
      [CsvCell.na, CsvCell.s "", CsvCell.num 3, CsvCell.s "vent", CsvCell.s "[1,2"])]
    "hazard_type"
    [CsvCell.na, CsvCell.s "", CsvCell.num 3, CsvCell.s "vent", CsvCell.s "[1,2"]
  refine ⟨?_, h.2.1 (CsvCell.s "vent") ?_⟩
  case refine_2 =>
    rintro ⟨x, ys, heq, hb, _⟩
    injection heq with hxeq
    subst hxeq
    exact absurd hb (by decide)
  have h1 := h.1 (by decide) (by decide)
  have h2 : ([CsvCell.na, CsvCell.s "", CsvCell.num 3, CsvCell.s "vent",
      CsvCell.s "[1,2"].map (fun c => DfCell.parsed (safe_parse_list c)))
      = [DfCell.parsed [], DfCell.parsed [], DfCell.parsed [],
         DfCell.parsed [], DfCell.parsed []] := by decide
  rw [h2] at h1
  exact h1

end Abyssal
